import Mathlib

/-!
Verification of the MCP/agent lifecycle core of the `agent-framework`
backend (files `mcp_manager.py`, `chat_agent.py`, `ollama_service.py`).
Python dictionaries are modelled as association lists with Python's
insert/replace and delete semantics; exceptions are modelled by threading
an `Option String` error component (or an `Except`) through each
operation; external effects (subprocess connection, tool listing, agent
construction, generation) are supplied by explicit oracle parameters so
that every behaviour the code admits is quantified over.
-/

/-- Association-list lookup with string keys, mirroring Python `dict[k]`
and `dict.get(k)`. -/
def lookupKey {α : Type} (k : String) : List (String × α) → Option α
  | [] => none
  | (k', v) :: rest => if k = k' then some v else lookupKey k rest

/-- Association-list insert mirroring Python `dict[k] = v`: replaces the
value in place when the key is present, appends otherwise. -/
def insertKey {α : Type} (k : String) (v : α) : List (String × α) → List (String × α)
  | [] => [(k, v)]
  | (k', v') :: rest => if k = k' then (k, v) :: rest else (k', v') :: insertKey k v rest

/-- Association-list delete mirroring Python `del dict[k]` guarded by a
membership test: removes every entry with the key (at most one when keys
are unique, as in a Python dict). -/
def eraseKey {α : Type} (k : String) (l : List (String × α)) : List (String × α) :=
  l.filter (fun p => p.1 ≠ k)

theorem lookupKey_insertKey_self {α : Type} (k : String) (v : α) (l : List (String × α)) :
    lookupKey k (insertKey k v l) = some v := by
  induction l with
  | nil => simp [insertKey, lookupKey]
  | cons p rest ih =>
    by_cases h : k = p.1
    · simp [insertKey, h, lookupKey]
    · simp [insertKey, h, lookupKey, ih]

theorem lookupKey_insertKey_ne {α : Type} (k k' : String) (v : α) (l : List (String × α))
    (h : k ≠ k') : lookupKey k (insertKey k' v l) = lookupKey k l := by
  induction l with
  | nil => simp [insertKey, lookupKey, h]
  | cons p rest ih =>
    by_cases h2 : k' = p.1
    · subst h2
      simp [insertKey, lookupKey, h, ih]
    · by_cases h3 : k = p.1
      · simp [insertKey, h2, lookupKey, h3]
      · simp [insertKey, h2, lookupKey, h3, ih]

theorem lookupKey_eraseKey_self {α : Type} (k : String) (l : List (String × α)) :
    lookupKey k (eraseKey k l) = none := by
  induction l with
  | nil => simp [eraseKey, lookupKey]
  | cons p rest ih =>
    by_cases h : p.1 = k
    · simpa [eraseKey, h] using ih
    · have hk : k ≠ p.1 := fun hkk => h hkk.symm
      simp [eraseKey, h, lookupKey, hk]
      simpa [eraseKey] using ih

/-- A cached MCP tool descriptor (name, description), as returned by
`session.list_tools()` and stored in `tools_cache`. -/
structure MCPTool where
  name : String
  description : String
  deriving DecidableEq, Repr

/-- A configured MCP server descriptor (`models/schemas.py` `MCPServer`):
registry key, transport type string, enabled flag, and the `config.env`
override mapping. Launch command and args do not affect the verified
behaviour and are omitted from the model. -/
structure MCPServer where
  name : String
  type : String
  enabled : Bool
  env : List (String × String)
  deriving DecidableEq, Repr

/-- Outcome of one low-level connection attempt to a server, decided by
the environment: the attempt can raise before the session is stored in
`active_connections` (during transport setup, session creation or
`session.initialize()`), raise during `session.list_tools()` after the
session is already stored, or succeed with a session id and a tool list. -/
inductive ConnectOutcome where
  | connectFail : ConnectOutcome
  | listToolsFail : Nat → ConnectOutcome
  | ok : Nat → List MCPTool → ConnectOutcome
  deriving DecidableEq, Repr

/-- Oracle giving each server name its connection outcome. -/
def ConnectWorld : Type := String → ConnectOutcome

/-- State of `MCPManager`: the server registry (`self.servers`, keyed by
`server.name`), the active session map (`self.active_connections`,
sessions as ids), and the per-server tool cache (`self.tools_cache`). -/
structure MCPState where
  servers : List MCPServer
  active : List (String × Nat)
  toolsCache : List (String × List MCPTool)
  deriving DecidableEq, Repr

/-- `MCPManager._connect_server`: for a `stdio` server, establish the
connection, store the session, list and cache the tools; every exception
is caught inside the method (its whole body is wrapped in try/except), so
it never raises. A failure before the session is stored changes nothing;
a failure during tool listing leaves the stored session without a cache
entry. Non-`stdio` types are logged and skipped. -/
def connectServer (w : ConnectWorld) (server : MCPServer) (st : MCPState) : MCPState :=
  if server.type = "stdio" then
    match w server.name with
    | .connectFail => st
    | .listToolsFail sid => { st with active := insertKey server.name sid st.active }
    | .ok sid tools =>
        { st with
          active := insertKey server.name sid st.active
          toolsCache := insertKey server.name tools st.toolsCache }
  else st

/-- Helper for `MCPManager.initialize_servers`: iterate a list of
descriptors, attempting `_connect_server` on each enabled one (the
per-server try/except in the loop can never fire since `_connect_server`
catches internally, but either way one server's failure does not stop the
loop). Returns the final state together with the names attempted, in
order. -/
def initServersAux (w : ConnectWorld) : List MCPServer → MCPState → MCPState × List String
  | [], st => (st, [])
  | s :: rest, st =>
      if s.enabled then
        let st' := connectServer w s st
        let r := initServersAux w rest st'
        (r.1, s.name :: r.2)
      else initServersAux w rest st

/-- `MCPManager.initialize_servers`: attempt a connection for every
enabled server in the registry. -/
def initializeServers (w : ConnectWorld) (st : MCPState) : MCPState × List String :=
  initServersAux w st.servers st

/-- `MCPManager.get_available_tools` entry: tool name, description and
owning server tag. -/
structure AvailableTool where
  name : String
  description : String
  server : String
  deriving DecidableEq, Repr

/-- `MCPManager.get_available_tools`: flatten the tool cache, tagging each
tool with its owning server name. -/
def getAvailableTools (st : MCPState) : List AvailableTool :=
  st.toolsCache.flatMap (fun p => p.2.map (fun t => ⟨t.name, t.description, p.1⟩))

/-- `self.servers.get(name)`: find a server descriptor by registry key. -/
def findServer (name : String) (st : MCPState) : Option MCPServer :=
  st.servers.find? (fun s => s.name = name)

/-- `MCPManager.disable_server`: unknown name returns `False` and changes
nothing; otherwise clears the enabled flag and deletes the server's
`active_connections` and `tools_cache` entries (each deletion guarded by
a membership test in the code; deleting an absent key is a no-op here). -/
def disableServer (name : String) (st : MCPState) : MCPState × Bool :=
  match findServer name st with
  | none => (st, false)
  | some _ =>
      ({ st with
          servers := st.servers.map (fun s =>
            if s.name = name then { s with enabled := false } else s)
          active := eraseKey name st.active
          toolsCache := eraseKey name st.toolsCache }, true)

/-- `MCPManager.enable_server`: unknown name returns `False`; otherwise
sets the enabled flag, runs `_connect_server` (which never raises) and
returns `True` regardless of the connection outcome. -/
def enableServer (w : ConnectWorld) (name : String) (st : MCPState) : MCPState × Bool :=
  match findServer name st with
  | none => (st, false)
  | some s =>
      let s' := { s with enabled := true }
      let st1 := { st with servers := st.servers.map (fun t =>
        if t.name = name then { t with enabled := true } else t) }
      (connectServer w s' st1, true)

/-- Content item of a tool-call result: either an item carrying a `text`
attribute or another item with only a string rendering. -/
inductive ContentItem where
  | textItem : String → ContentItem
  | otherItem : String → ContentItem
  deriving DecidableEq, Repr

/-- Python `str(...)` applied to a content item inside the wrapper:
`item.text` when the item has a `text` attribute, its rendering
otherwise. -/
def contentStr : ContentItem → String
  | .textItem t => t
  | .otherItem r => r

/-- Result object of `session.call_tool`: a content list plus the string
rendering used by the `str(result)` fallback when the list is empty. -/
structure CallToolResult where
  content : List ContentItem
  srepr : String
  deriving DecidableEq, Repr

/-- `tool_wrapper` inside `MCPManager.get_tool_functions`, applied to the
outcome of `session.call_tool(tool_name, arguments=kwargs)` (`.error e`
when the call raises an exception with message `e`). The whole body sits
in a try/except, so the wrapper always returns a string and never
propagates an exception. -/
def toolWrapper (tool_name : String) (call : Except String CallToolResult) : String :=
  match call with
  | .error e => "Error calling tool " ++ tool_name ++ ": " ++ e
  | .ok r =>
      match r.content with
      | [] => r.srepr
      | c :: _ => contentStr c

/-- The data a generated tool adapter is bound to: the owning session
and the tool name, both captured by value through Python default
arguments (`session=session, tool_name=tool.name`) at construction
time, plus the metadata attached to the function object. -/
structure ToolAdapter where
  sessionId : Nat
  toolName : String
  docString : String
  deriving DecidableEq, Repr

/-- Invoking an adapter: call the bound session's `call_tool` with the
bound tool name and wrap the outcome exactly as `tool_wrapper` does. -/
def invokeAdapter (callTool : Nat → String → Except String CallToolResult)
    (a : ToolAdapter) : String :=
  toolWrapper a.toolName (callTool a.sessionId a.toolName)

/-- `MCPManager.get_tool_functions`, following the code's accumulation
structure: start from an empty list, iterate `active_connections`, fetch
`tools_cache.get(server_name, [])`, and append one adapter per tool whose
bound pair is the default-argument capture of that iteration's session
and tool name. -/
def getToolFunctions (st : MCPState) : List ToolAdapter :=
  st.active.foldl
    (fun acc p =>
      ((lookupKey p.1 st.toolsCache).getD []).foldl
        (fun acc2 t => acc2 ++ [⟨p.2, t.name, t.description⟩]) acc)
    []

/-- The spec's reading of `BridgeAll`: the flattened enumeration of
(owning session, tool) pairs across active connections, in order, each
adapter bound to the pair of the specific tool it was built from. -/
def bridgeAllSpec (st : MCPState) : List ToolAdapter :=
  st.active.flatMap (fun p =>
    ((lookupKey p.1 st.toolsCache).getD []).map (fun t => ⟨p.2, t.name, t.description⟩))

/-- Expansion of one env override value in `MCPManager._connect_server`:
when the value starts with the two characters dollar and open brace
(Python `value.startswith`) and ends with a closing brace (Python
`value.endswith`), the characters strictly between (Python
`value[2:-1]`) are looked up with `os.getenv(-, "")`; any other value is
passed through unchanged. Strings are handled through their character
lists. -/
def expandValue (getenv : String → Option String) (v : String) : String :=
  if v.data.take 2 = ['$', '\x7b'] ∧ v.data.getLast? = some '\x7d' then
    (getenv (String.mk ((v.data.drop 2).dropLast))).getD ""
  else v

/-- The launch environment built in `MCPManager._connect_server` for a
`stdio` server: a copy of the full process environment, overlaid with
each env override in order, each value expanded by `expandValue`. -/
def buildEnv (getenv : String → Option String) (procEnv : List (String × String))
    (overrides : List (String × String)) : List (String × String) :=
  overrides.foldl (fun acc kv => insertKey kv.1 (expandValue getenv kv.2) acc) procEnv

/-- The claim's reading of placeholder expansion: only a value that is
exactly a placeholder — dollar, open brace, a nonempty environment
variable name made of letters, digits or underscores, close brace — is
replaced by the process environment's value of that name (empty when
unset); every other value, including one that merely embeds a
placeholder, passes through unchanged. -/
def expandValueSpec (getenv : String → Option String) (v : String) : String :=
  if v.data.take 2 = ['$', '\x7b'] ∧ v.data.getLast? = some '\x7d' ∧
      (v.data.drop 2).dropLast ≠ [] ∧
      ((v.data.drop 2).dropLast).all (fun c => c.isAlphanum || c = '_') then
    (getenv (String.mk ((v.data.drop 2).dropLast))).getD ""
  else v

/-- Handle of a constructed `OpenAIChatClient`: an allocation id
modelling Python object identity, and the `model_id` the client was
constructed with (`config["model"]`, an `Optional[str]`). -/
structure ClientHandle where
  id : Nat
  modelId : Option String
  deriving DecidableEq, Repr

/-- Handle of a constructed agent (`client.create_agent(...)`): an
allocation id modelling Python object identity, and the model identity it
carries (that of the client which created it). -/
structure AgentHandle where
  id : Nat
  modelId : Option String
  deriving DecidableEq, Repr

/-- The slice of `OllamaService` state that `ChatAgentManager` reads and
writes: `self.model` (an `Optional[str]`, `None` until a model is
selected) and `self._model_loaded`. -/
structure OllamaState where
  model : Option String
  modelLoaded : Bool
  deriving DecidableEq, Repr

/-- State of `ChatAgentManager`: the ollama service slice, the agent and
client handles (`None` before initialization), the `_initialized` flag,
and a fresh-id counter modelling the allocation of new Python objects. -/
structure ChatState where
  ollama : OllamaState
  agent : Option AgentHandle
  client : Option ClientHandle
  initialized : Bool
  nextId : Nat
  deriving DecidableEq, Repr

/-- Where, if anywhere, one run of agent construction raises: during the
`OpenAIChatClient(...)` constructor (before `self.client` is assigned),
or during `client.create_agent(...)` (after `self.client` is assigned),
or nowhere. -/
inductive InitBehavior where
  | ctorFail : String → InitBehavior
  | createFail : String → InitBehavior
  | ok : InitBehavior
  deriving DecidableEq, Repr

/-- `ChatAgentManager._initialize_agent`: returns immediately when
already initialized; otherwise reads the config, assigns `self.client`
to a freshly constructed client carrying the current model, then assigns
`self.agent` to a freshly created agent and sets `_initialized`. The
second component is the propagated exception message, if any; mutations
made before the raise are kept, as in Python. -/
def initializeAgent (w : InitBehavior) (st : ChatState) : ChatState × Option String :=
  if st.initialized then (st, none)
  else
    match w with
    | .ctorFail e => (st, some e)
    | .createFail e =>
        ({ st with
            client := some ⟨st.nextId, st.ollama.model⟩
            nextId := st.nextId + 1 }, some e)
    | .ok =>
        ({ st with
            client := some ⟨st.nextId, st.ollama.model⟩
            agent := some ⟨st.nextId + 1, st.ollama.model⟩
            initialized := true
            nextId := st.nextId + 2 }, none)

/-- `ChatAgentManager._ensure_initialized` as executed by a single task:
fast-path return when initialized, otherwise run `_initialize_agent`
under the init lock (the double check collapses in sequential
execution; the concurrent protocol is modelled separately below). -/
def ensureInitialized (w : InitBehavior) (st : ChatState) : ChatState × Option String :=
  if st.initialized then (st, none) else initializeAgent w st

/-- `ChatAgentManager.warmup`: first `await self._ensure_initialized()`
— outside the try block, so an exception raised there propagates — then,
inside try/except, a throwaway `run_stream("Hi")` whose failure
(`genFail = some e`) is caught and only logged. -/
def warmup (w : InitBehavior) (genFail : Option String) (st : ChatState) :
    ChatState × Option String :=
  let r := ensureInitialized w st
  match r.2 with
  | some e => (r.1, some e)
  | none =>
      match genFail with
      | some _ => (r.1, none)
      | none => (r.1, none)

/-- `ChatAgentManager.reload_with_model`: inside one try/except, set the
service's model and `_model_loaded`, reset `_initialized`, `agent` and
`client`, run `_ensure_initialized` then `warmup`, and return `True`;
any exception is caught and `False` is returned with the mutations made
so far kept. -/
def reloadWithModel (w : InitBehavior) (genFail : Option String) (modelName : String)
    (st : ChatState) : ChatState × Bool :=
  let st1 := { st with ollama := { model := some modelName, modelLoaded := true } }
  let st2 := { st1 with initialized := false, agent := none, client := none }
  let r3 := ensureInitialized w st2
  match r3.2 with
  | some _ => (r3.1, false)
  | none =>
      let r4 := warmup w genFail r3.1
      match r4.2 with
      | some _ => (r4.1, false)
      | none => (r4.1, true)

/-- Program counter of one task running
`ChatAgentManager._ensure_initialized`, at the granularity of the
statements that read or write shared state: the unlocked fast-path check
of `_initialized`, the wait to acquire `self._init_lock`, the re-check
of `_initialized` under the lock, the agent-construction body of
`_initialize_agent` (which ends by setting `_initialized = True`), the
lock release on leaving the `async with`, and completion. -/
inductive EnsurePC where
  | start : EnsurePC
  | waitLock : EnsurePC
  | critical : EnsurePC
  | initing : EnsurePC
  | releasing : EnsurePC
  | finished : EnsurePC
  deriving DecidableEq, Repr

/-- Shared state of `n` tasks concurrently inside `_ensure_initialized`:
the lock holder (`none` when free), the `_initialized` flag, a counter of
completed executions of the agent-construction body (each ending in
`client.create_agent`), and each task's program counter. The model lets
the scheduler interleave the tasks' atomic steps arbitrarily, a superset
of the event-loop interleavings the Python code admits. -/
structure EnsureSys (n : Nat) where
  lock : Option (Fin n)
  initialized : Bool
  initCount : Nat
  pc : Fin n → EnsurePC

/-- One atomic step of task `i`; a task that cannot move (lock held by
another task, or already finished) leaves the state unchanged.
Construction is modelled as completing normally, as in every run where
`_initialize_agent` does not raise. -/
def ensureStep {n : Nat} (i : Fin n) (s : EnsureSys n) : EnsureSys n :=
  match s.pc i with
  | .start =>
      if s.initialized then { s with pc := Function.update s.pc i .finished }
      else { s with pc := Function.update s.pc i .waitLock }
  | .waitLock =>
      match s.lock with
      | none => { s with lock := some i, pc := Function.update s.pc i .critical }
      | some _ => s
  | .critical =>
      if s.initialized then { s with pc := Function.update s.pc i .releasing }
      else { s with pc := Function.update s.pc i .initing }
  | .initing =>
      { s with
          initialized := true
          initCount := s.initCount + 1
          pc := Function.update s.pc i .releasing }
  | .releasing =>
      { s with lock := none, pc := Function.update s.pc i .finished }
  | .finished => s

/-- Run the protocol under a scheduler: apply the steps of the scheduled
tasks in order. -/
def ensureRun {n : Nat} (sched : List (Fin n)) (s : EnsureSys n) : EnsureSys n :=
  sched.foldl (fun s' i => ensureStep i s') s

/-- Initial state of the protocol: the controller is `Uninitialized`, no
construction has run, the lock is free, and all `n` callers are about to
enter `_ensure_initialized`. -/
def ensureInit (n : Nat) : EnsureSys n :=
  { lock := none, initialized := false, initCount := 0, pc := fun _ => .start }

/-- A task is inside the lock-protected section. -/
def inCS : EnsurePC → Prop
  | .critical => True
  | .initing => True
  | .releasing => True
  | _ => False

instance (p : EnsurePC) : Decidable (inCS p) := by
  cases p <;> simp [inCS] <;> infer_instance

/-- Protocol invariant: a task is in the lock-protected section exactly
when it holds the lock (so at most one is); the construction counter
mirrors the `_initialized` flag; a task at the construction body saw the
flag false under the lock; a task past the construction point or finished
has seen the flag true, and the flag never goes back to false. -/
def EnsureInv {n : Nat} (s : EnsureSys n) : Prop :=
  (∀ i : Fin n, inCS (s.pc i) ↔ s.lock = some i) ∧
  (s.initCount = if s.initialized then 1 else 0) ∧
  (∀ i : Fin n, s.pc i = .initing → s.initialized = false) ∧
  (∀ i : Fin n, s.pc i = .releasing ∨ s.pc i = .finished → s.initialized = true)

theorem ensureStep_inv {n : Nat} (i : Fin n) (s : EnsureSys n) (h : EnsureInv s) :
    EnsureInv (ensureStep i s) := by
  obtain ⟨h1, h2, h3, h4⟩ := h
  cases hpc : s.pc i with
  | start =>
    by_cases hinit : s.initialized = true
    · have hstep : ensureStep i s = { s with pc := Function.update s.pc i .finished } := by
        simp [ensureStep, hpc, hinit]
      rw [hstep]
      unfold EnsureInv
      dsimp only
      refine ⟨fun j => ?_, h2, fun j hj => ?_, fun j hj => hinit⟩
      · by_cases hji : j = i
        · rw [hji]
          simp only [Function.update_same, inCS, false_iff]
          intro hc
          have hx := (h1 i).mpr hc
          rw [hpc] at hx
          exact hx
        · rw [Function.update_noteq hji]
          exact h1 j
      · by_cases hji : j = i
        · rw [hji, Function.update_same] at hj
          simp at hj
        · rw [Function.update_noteq hji] at hj
          exact h3 j hj
    · have hstep : ensureStep i s = { s with pc := Function.update s.pc i .waitLock } := by
        simp [ensureStep, hpc, hinit]
      rw [hstep]
      unfold EnsureInv
      dsimp only
      refine ⟨fun j => ?_, h2, fun j hj => ?_, fun j hj => ?_⟩
      · by_cases hji : j = i
        · rw [hji]
          simp only [Function.update_same, inCS, false_iff]
          intro hc
          have hx := (h1 i).mpr hc
          rw [hpc] at hx
          exact hx
        · rw [Function.update_noteq hji]
          exact h1 j
      · by_cases hji : j = i
        · rw [hji, Function.update_same] at hj
          simp at hj
        · rw [Function.update_noteq hji] at hj
          exact h3 j hj
      · by_cases hji : j = i
        · rw [hji, Function.update_same] at hj
          simp at hj
        · rw [Function.update_noteq hji] at hj
          exact h4 j hj
  | waitLock =>
    cases hlock : s.lock with
    | none =>
      have hstep : ensureStep i s =
          { s with lock := some i, pc := Function.update s.pc i .critical } := by
        simp [ensureStep, hpc, hlock]
      rw [hstep]
      unfold EnsureInv
      dsimp only
      refine ⟨fun j => ?_, h2, fun j hj => ?_, fun j hj => ?_⟩
      · by_cases hji : j = i
        · rw [hji]
          simp [Function.update_same, inCS]
        · rw [Function.update_noteq hji]
          constructor
          · intro hc
            have hx := (h1 j).mp hc
            rw [hlock] at hx
            exact absurd hx (by simp)
          · intro hc
            have hij : i = j := by injection hc
            exact absurd hij.symm hji
      · by_cases hji : j = i
        · rw [hji, Function.update_same] at hj
          simp at hj
        · rw [Function.update_noteq hji] at hj
          exact h3 j hj
      · by_cases hji : j = i
        · rw [hji, Function.update_same] at hj
          simp at hj
        · rw [Function.update_noteq hji] at hj
          exact h4 j hj
    | some k =>
      have hstep : ensureStep i s = s := by
        simp [ensureStep, hpc, hlock]
      rw [hstep]
      unfold EnsureInv
      exact ⟨h1, h2, h3, h4⟩
  | critical =>
    have hlock : s.lock = some i := by
      apply (h1 i).mp
      rw [hpc]
      trivial
    by_cases hinit : s.initialized = true
    · have hstep : ensureStep i s = { s with pc := Function.update s.pc i .releasing } := by
        simp [ensureStep, hpc, hinit]
      rw [hstep]
      unfold EnsureInv
      dsimp only
      refine ⟨fun j => ?_, h2, fun j hj => ?_, fun j hj => hinit⟩
      · by_cases hji : j = i
        · rw [hji]
          simp only [Function.update_same, inCS, true_iff]
          exact hlock
        · rw [Function.update_noteq hji]
          exact h1 j
      · by_cases hji : j = i
        · rw [hji, Function.update_same] at hj
          simp at hj
        · rw [Function.update_noteq hji] at hj
          exact h3 j hj
    · have hstep : ensureStep i s = { s with pc := Function.update s.pc i .initing } := by
        simp [ensureStep, hpc, hinit]
      rw [hstep]
      unfold EnsureInv
      dsimp only
      refine ⟨fun j => ?_, h2, fun j hj => by simpa using hinit, fun j hj => ?_⟩
      · by_cases hji : j = i
        · rw [hji]
          simp only [Function.update_same, inCS, true_iff]
          exact hlock
        · rw [Function.update_noteq hji]
          exact h1 j
      · by_cases hji : j = i
        · rw [hji, Function.update_same] at hj
          simp at hj
        · rw [Function.update_noteq hji] at hj
          exact h4 j hj
  | initing =>
    have hlock : s.lock = some i := by
      apply (h1 i).mp
      rw [hpc]
      trivial
    have hinitF : s.initialized = false := h3 i hpc
    have hstep : ensureStep i s =
        { s with initialized := true, initCount := s.initCount + 1,
                 pc := Function.update s.pc i .releasing } := by
      simp [ensureStep, hpc]
    rw [hstep]
    unfold EnsureInv
    dsimp only
    refine ⟨fun j => ?_, by simp [h2, hinitF], fun j hj => ?_, fun j hj => rfl⟩
    · by_cases hji : j = i
      · rw [hji]
        simp only [Function.update_same, inCS, true_iff]
        exact hlock
      · rw [Function.update_noteq hji]
        exact h1 j
    · by_cases hji : j = i
      · rw [hji, Function.update_same] at hj
        simp at hj
      · rw [Function.update_noteq hji] at hj
        have hx := (h1 j).mp (by rw [hj]; trivial)
        rw [hlock] at hx
        have hij : i = j := by injection hx
        exact absurd hij.symm hji
  | releasing =>
    have hlock : s.lock = some i := by
      apply (h1 i).mp
      rw [hpc]
      trivial
    have hinitT : s.initialized = true := h4 i (Or.inl hpc)
    have hstep : ensureStep i s =
        { s with lock := none, pc := Function.update s.pc i .finished } := by
      simp [ensureStep, hpc]
    rw [hstep]
    unfold EnsureInv
    dsimp only
    refine ⟨fun j => ?_, h2, fun j hj => ?_, fun j hj => hinitT⟩
    · by_cases hji : j = i
      · rw [hji]
        simp [Function.update_same, inCS]
      · rw [Function.update_noteq hji]
        constructor
        · intro hc
          have hx := (h1 j).mp hc
          rw [hlock] at hx
          have hij : i = j := by injection hx
          exact absurd hij.symm hji
        · intro hc
          exact absurd hc (by simp)
    · by_cases hji : j = i
      · rw [hji, Function.update_same] at hj
        simp at hj
      · rw [Function.update_noteq hji] at hj
        exact h3 j hj
  | finished =>
    have hstep : ensureStep i s = s := by
      simp [ensureStep, hpc]
    rw [hstep]
    unfold EnsureInv
    exact ⟨h1, h2, h3, h4⟩

theorem ensureRun_cons {n : Nat} (i : Fin n) (sched : List (Fin n)) (s : EnsureSys n) :
    ensureRun (i :: sched) s = ensureRun sched (ensureStep i s) := rfl

theorem ensureRun_inv {n : Nat} (sched : List (Fin n)) (s : EnsureSys n) (h : EnsureInv s) :
    EnsureInv (ensureRun sched s) := by
  induction sched generalizing s with
  | nil => exact h
  | cons i rest ih =>
    rw [ensureRun_cons]
    exact ih _ (ensureStep_inv i s h)

theorem ensureInit_inv (n : Nat) : EnsureInv (ensureInit n) := by
  refine ⟨fun i => ?_, rfl, fun i hi => rfl, fun i hi => ?_⟩
  · simp [ensureInit, inCS]
  · rcases hi with hi | hi <;> simp [ensureInit] at hi

/-- C1: if `_ensure_initialized` is entered by `n` concurrent callers
while the controller is uninitialized, then under every interleaving of
their atomic steps (a superset of the event-loop schedules the Python
code admits), once all callers have returned, the agent-construction
body of `_initialize_agent` (ending in `client.create_agent`) has been
executed exactly once and `is_initialized` is observed `true` by every
caller. Construction is modelled as completing normally. -/
theorem ensure_initialized_single_flight {n : Nat} (sched : List (Fin n)) (hn : 0 < n)
    (hdone : ∀ i : Fin n, (ensureRun sched (ensureInit n)).pc i = .finished) :
    (ensureRun sched (ensureInit n)).initialized = true ∧
    (ensureRun sched (ensureInit n)).initCount = 1 := by
  obtain ⟨h1, h2, h3, h4⟩ := ensureRun_inv sched (ensureInit n) (ensureInit_inv n)
  have hinit : (ensureRun sched (ensureInit n)).initialized = true :=
    h4 ⟨0, hn⟩ (Or.inr (hdone ⟨0, hn⟩))
  refine ⟨hinit, ?_⟩
  rw [h2, hinit]
  rfl

/-- A two-caller schedule in which the second caller reaches the lock
while the first is still initializing, then skips construction. -/
def c1Sched : List (Fin 2) := [0, 0, 1, 0, 0, 0, 1, 1, 1]

/-- Witness for C1 at a concrete schedule of two concurrent callers. -/
theorem ensure_initialized_single_flight_witness :
    ((0 : Nat) < 2 ∧ ∀ i : Fin 2, (ensureRun c1Sched (ensureInit 2)).pc i = .finished) ∧
    (ensureRun c1Sched (ensureInit 2)).initialized = true ∧
    (ensureRun c1Sched (ensureInit 2)).initCount = 1 :=
  ⟨⟨by decide, by decide⟩,
    ensure_initialized_single_flight c1Sched (by decide) (by decide)⟩

/-- C3: when the underlying `session.call_tool` invocation raises an
exception with message `msg`, the generated adapter does not propagate
it: it returns the string built from the error marker, the bound tool
name and the exception message. (`toolWrapper` is total: every outcome of
the call yields a string.) -/
theorem tool_wrapper_converts_call_errors (tool_name msg : String) :
    toolWrapper tool_name (.error msg) = "Error calling tool " ++ tool_name ++ ": " ++ msg :=
  rfl

theorem foldl_append_singleton_map {α β : Type} (f : α → β) (l : List α) (acc : List β) :
    l.foldl (fun a t => a ++ [f t]) acc = acc ++ l.map f := by
  induction l generalizing acc with
  | nil => simp
  | cons x xs ih => simp [ih]

theorem foldl_append_flatMap {α β : Type} (g : α → List β) (l : List α) (acc : List β) :
    l.foldl (fun a x => a ++ g x) acc = acc ++ l.flatMap g := by
  induction l generalizing acc with
  | nil => simp
  | cons x xs ih => simp [ih]

/-- C4: the adapter list built by `get_tool_functions` coincides with the
flattened enumeration of each active connection's cached tools, each
adapter bound to the owning session and that specific tool's name — the
default-argument capture in the code binds each pair by value per
iteration, so the i-th adapter always carries the i-th enumerated
(session, tool name) pair, not the loop variables' final values. -/
theorem get_tool_functions_binds_per_tool (st : MCPState) :
    getToolFunctions st = bridgeAllSpec st := by
  unfold getToolFunctions bridgeAllSpec
  simp only [foldl_append_singleton_map]
  rw [foldl_append_flatMap]
  simp

theorem getAvailableTools_server_not_erased (name : String) (st : MCPState)
    (e : AvailableTool)
    (he : e ∈ getAvailableTools { st with toolsCache := eraseKey name st.toolsCache }) :
    e.server ≠ name := by
  simp only [getAvailableTools, List.mem_flatMap] at he
  obtain ⟨p, hp, he2⟩ := he
  simp only [List.mem_map] at he2
  obtain ⟨t, ht, rfl⟩ := he2
  simp only [eraseKey, List.mem_filter] at hp
  simpa using hp.2

/-- C6: for a name present in the registry with an active connection,
`disable_server` returns `true`, removes both the active-connection
entry and the tool-cache entry, and afterwards `get_available_tools`
carries no entry tagged with that server; for a name not in the
registry it returns `false` and leaves the state unchanged. -/
theorem disable_server_removes_connection_and_cache (st : MCPState) (name : String) :
    ((findServer name st).isSome → lookupKey name st.active ≠ none →
      (disableServer name st).2 = true ∧
      lookupKey name (disableServer name st).1.active = none ∧
      lookupKey name (disableServer name st).1.toolsCache = none ∧
      ∀ e ∈ getAvailableTools (disableServer name st).1, e.server ≠ name) ∧
    (findServer name st = none →
      (disableServer name st).2 = false ∧ (disableServer name st).1 = st) := by
  constructor
  · intro hs _
    cases hfind : findServer name st with
    | none => rw [hfind] at hs; simp at hs
    | some sv =>
      simp only [disableServer, hfind]
      exact ⟨trivial, lookupKey_eraseKey_self _ _, lookupKey_eraseKey_self _ _,
        fun e he => getAvailableTools_server_not_erased name _ e he⟩
  · intro hn
    simp [disableServer, hn]

/-- Concrete manager state for the C6 witness: one connected server with
one cached tool. -/
def c6State : MCPState :=
  { servers := [⟨"srv", "stdio", true, []⟩]
    active := [("srv", 5)]
    toolsCache := [("srv", [⟨"toolA", "descA"⟩])] }

/-- Witness for C6 at a concrete state, exercising both the present and
the absent branch. -/
theorem disable_server_removes_connection_and_cache_witness :
    ((findServer "srv" c6State).isSome ∧ lookupKey "srv" c6State.active ≠ none ∧
      (disableServer "srv" c6State).2 = true ∧
      lookupKey "srv" (disableServer "srv" c6State).1.active = none ∧
      lookupKey "srv" (disableServer "srv" c6State).1.toolsCache = none) ∧
    (findServer "zzz" c6State = none ∧ (disableServer "zzz" c6State).2 = false) :=
  ⟨⟨by decide, by decide,
    ((disable_server_removes_connection_and_cache c6State "srv").1 (by decide) (by decide)).1,
    ((disable_server_removes_connection_and_cache c6State "srv").1 (by decide) (by decide)).2.1,
    ((disable_server_removes_connection_and_cache c6State "srv").1 (by decide) (by decide)).2.2.1⟩,
   ⟨by decide,
    ((disable_server_removes_connection_and_cache c6State "zzz").2 (by decide)).1⟩⟩

theorem connectServer_servers (w : ConnectWorld) (sv : MCPServer) (st : MCPState) :
    (connectServer w sv st).servers = st.servers := by
  by_cases ht : sv.type = "stdio"
  · cases hw : w sv.name <;> simp [connectServer, ht, hw]
  · simp [connectServer, ht]

theorem find?_map_setEnabled (name : String) (l : List MCPServer) (s : MCPServer)
    (h : l.find? (fun t => t.name = name) = some s) :
    (l.map (fun t => if t.name = name then { t with enabled := true } else t)).find?
        (fun t => t.name = name) = some { s with enabled := true } := by
  induction l with
  | nil => simp [List.find?] at h
  | cons a rest ih =>
    by_cases ha : a.name = name
    · rw [List.find?_cons_of_pos _ (by simpa using ha)] at h
      cases h
      simp only [List.map_cons, ha, if_pos]
      rw [List.find?_cons_of_pos _ (by simp)]
    · rw [List.find?_cons_of_neg _ (by simpa using ha)] at h
      simp only [List.map_cons, ha, if_neg, ite_false]
      rw [List.find?_cons_of_neg _ (by simpa using ha)]
      exact ih h

/-- C9: `enable_server` returns `true` exactly when the name exists in
the registry — independent of the connection oracle, hence regardless of
whether the attempt succeeds, fails anywhere, or is skipped for a
non-stdio transport — and it sets that server's enabled flag; the
boolean never reports whether a connection or tool cache was
established. -/
theorem enable_server_reports_only_registry_membership (w : ConnectWorld) (name : String)
    (st : MCPState) :
    ((enableServer w name st).2 = (findServer name st).isSome) ∧
    (∀ s, findServer name st = some s →
      findServer name (enableServer w name st).1 = some { s with enabled := true }) := by
  cases hfind : findServer name st with
  | none =>
    refine ⟨by simp [enableServer, hfind], fun s hs => ?_⟩
    cases hs
  | some sv =>
    refine ⟨by simp [enableServer, hfind], fun s hs => ?_⟩
    obtain rfl : sv = s := by injection hs
    have hred : (enableServer w name st).1 =
        connectServer w { sv with enabled := true }
          { st with servers := st.servers.map (fun t =>
              if t.name = name then { t with enabled := true } else t) } := by
      simp [enableServer, hfind]
    rw [hred]
    unfold findServer
    rw [connectServer_servers]
    dsimp only
    exact find?_map_setEnabled name st.servers sv (by simpa [findServer] using hfind)

/-- Concrete state and oracle for the C9 witness: the only registered
server is disabled and its connection attempt raises. -/
def c9State : MCPState :=
  { servers := [⟨"srv9", "stdio", false, []⟩], active := [], toolsCache := [] }

/-- Witness for C9: enabling the registered server under a failing
connection oracle still returns `true` and sets the flag; an unknown
name yields `false`. -/
theorem enable_server_reports_only_registry_membership_witness :
    (enableServer (fun _ => .connectFail) "srv9" c9State).2 = true ∧
    findServer "srv9" (enableServer (fun _ => .connectFail) "srv9" c9State).1 =
      some ⟨"srv9", "stdio", true, []⟩ ∧
    (enableServer (fun _ => .connectFail) "nope" c9State).2 = false :=
  ⟨by
      rw [(enable_server_reports_only_registry_membership (fun _ => .connectFail)
        "srv9" c9State).1]
      decide,
   (enable_server_reports_only_registry_membership (fun _ => .connectFail) "srv9" c9State).2
      ⟨"srv9", "stdio", false, []⟩ (by decide),
   by
      rw [(enable_server_reports_only_registry_membership (fun _ => .connectFail)
        "nope" c9State).1]
      decide⟩

theorem connectServer_lookup_active_ne (w : ConnectWorld) (sv : MCPServer) (st : MCPState)
    (k : String) (hk : k ≠ sv.name) :
    lookupKey k (connectServer w sv st).active = lookupKey k st.active := by
  by_cases ht : sv.type = "stdio"
  · cases hw : w sv.name <;> simp [connectServer, ht, hw, lookupKey_insertKey_ne _ _ _ _ hk]
  · simp [connectServer, ht]

theorem connectServer_lookup_cache_ne (w : ConnectWorld) (sv : MCPServer) (st : MCPState)
    (k : String) (hk : k ≠ sv.name) :
    lookupKey k (connectServer w sv st).toolsCache = lookupKey k st.toolsCache := by
  by_cases ht : sv.type = "stdio"
  · cases hw : w sv.name <;> simp [connectServer, ht, hw, lookupKey_insertKey_ne _ _ _ _ hk]
  · simp [connectServer, ht]

theorem connectServer_lookup_active_self (w : ConnectWorld) (sv : MCPServer) (st : MCPState)
    (ht : sv.type = "stdio") :
    lookupKey sv.name (connectServer w sv st).active =
      (match w sv.name with
       | .connectFail => lookupKey sv.name st.active
       | .listToolsFail sid => some sid
       | .ok sid _ => some sid) := by
  cases hw : w sv.name <;> simp [connectServer, ht, hw, lookupKey_insertKey_self]

theorem connectServer_lookup_cache_self (w : ConnectWorld) (sv : MCPServer) (st : MCPState)
    (ht : sv.type = "stdio") :
    lookupKey sv.name (connectServer w sv st).toolsCache =
      (match w sv.name with
       | .connectFail => lookupKey sv.name st.toolsCache
       | .listToolsFail _ => lookupKey sv.name st.toolsCache
       | .ok _ tools => some tools) := by
  cases hw : w sv.name <;> simp [connectServer, ht, hw, lookupKey_insertKey_self]

theorem initServersAux_preserves (w : ConnectWorld) (l : List MCPServer) (st : MCPState)
    (k : String) (hk : k ∉ l.map (fun s => s.name)) :
    lookupKey k (initServersAux w l st).1.active = lookupKey k st.active ∧
    lookupKey k (initServersAux w l st).1.toolsCache = lookupKey k st.toolsCache := by
  induction l generalizing st with
  | nil => exact ⟨rfl, rfl⟩
  | cons a rest ih =>
    simp only [List.map_cons, List.mem_cons, not_or] at hk
    obtain ⟨hka, hkr⟩ := hk
    by_cases ha : a.enabled = true
    · have h1 := ih (connectServer w a st) hkr
      simp only [initServersAux, ha, if_true]
      exact ⟨h1.1.trans (connectServer_lookup_active_ne w a st k hka),
        h1.2.trans (connectServer_lookup_cache_ne w a st k hka)⟩
    · simp only [initServersAux, ha, if_false]
      exact ih st hkr

theorem initServersAux_attempts (w : ConnectWorld) (l : List MCPServer) (st : MCPState) :
    (initServersAux w l st).2 = (l.filter (fun s => s.enabled)).map (fun s => s.name) := by
  induction l generalizing st with
  | nil => rfl
  | cons a rest ih =>
    by_cases ha : a.enabled = true
    · simp [initServersAux, ha, ih]
    · simp [initServersAux, ha, ih]

theorem initServersAux_char (w : ConnectWorld) (l : List MCPServer) (st : MCPState)
    (hnd : (l.map (fun s => s.name)).Nodup) (s : MCPServer) (hs : s ∈ l)
    (he : s.enabled = true) (ht : s.type = "stdio") :
    lookupKey s.name (initServersAux w l st).1.active =
      (match w s.name with
       | .connectFail => lookupKey s.name st.active
       | .listToolsFail sid => some sid
       | .ok sid _ => some sid) ∧
    lookupKey s.name (initServersAux w l st).1.toolsCache =
      (match w s.name with
       | .connectFail => lookupKey s.name st.toolsCache
       | .listToolsFail _ => lookupKey s.name st.toolsCache
       | .ok _ tools => some tools) := by
  revert hnd hs
  induction l generalizing st with
  | nil =>
    intro hnd hs
    cases hs
  | cons a rest ih =>
    intro hnd hs
    simp only [List.map_cons, List.nodup_cons] at hnd
    obtain ⟨hna, hndr⟩ := hnd
    rcases List.mem_cons.mp hs with rfl | hsr
    · simp only [initServersAux, he, if_true]
      have hpres := initServersAux_preserves w rest (connectServer w s st) s.name hna
      exact ⟨hpres.1.trans (connectServer_lookup_active_self w s st ht),
        hpres.2.trans (connectServer_lookup_cache_self w s st ht)⟩
    · have hsname : s.name ∈ rest.map (fun s => s.name) := List.mem_map_of_mem _ hsr
      have hne : s.name ≠ a.name := fun hcc => hna (hcc ▸ hsname)
      by_cases ha : a.enabled = true
      · simp only [initServersAux, ha, if_true]
        have hrec := ih (connectServer w a st) hndr hsr
        refine ⟨hrec.1.trans ?_, hrec.2.trans ?_⟩
        · cases hw : w s.name <;>
            simp [hw, connectServer_lookup_active_ne w a st s.name hne]
        · cases hw : w s.name <;>
            simp [hw, connectServer_lookup_cache_ne w a st s.name hne]
      · simp only [initServersAux, ha, if_false]
        exact ih st hndr hsr

/-- C2, amended: `initialize_servers` attempts a connection for every
enabled server in registry order — one server's failure never prevents
the remaining attempts, and disabled servers are never attempted — and
each enabled stdio server's resulting entries are determined by its own
outcome alone: an exception raised before the session is stored leaves
the active set unchanged for that server, while an exception raised
during tool listing leaves the stored session IN the active set (with no
tool-cache entry); only a full success adds both entries. The original
claim's stronger reading — that any exception while connecting excludes
the server from the active set — fails for tool-listing failures (see
the counterexample). -/
theorem initialize_servers_partial_failure_isolation (w : ConnectWorld) (st : MCPState)
    (hnd : (st.servers.map (fun s => s.name)).Nodup) :
    (initializeServers w st).2 =
      (st.servers.filter (fun s => s.enabled)).map (fun s => s.name) ∧
    ∀ s ∈ st.servers, s.enabled = true → s.type = "stdio" →
      lookupKey s.name (initializeServers w st).1.active =
        (match w s.name with
         | .connectFail => lookupKey s.name st.active
         | .listToolsFail sid => some sid
         | .ok sid _ => some sid) ∧
      lookupKey s.name (initializeServers w st).1.toolsCache =
        (match w s.name with
         | .connectFail => lookupKey s.name st.toolsCache
         | .listToolsFail _ => lookupKey s.name st.toolsCache
         | .ok _ tools => some tools) :=
  ⟨initServersAux_attempts w st.servers st,
   fun s hs he ht => initServersAux_char w st.servers st hnd s hs he ht⟩

/-- Concrete registry for the C2 witness: a failing server, a succeeding
server and a disabled one. -/
def c2WitnessState : MCPState :=
  { servers := [⟨"bad", "stdio", true, []⟩, ⟨"good", "stdio", true, []⟩,
      ⟨"off", "stdio", false, []⟩]
    active := []
    toolsCache := [] }

/-- Connection oracle for the C2 witness: `good` succeeds, everything
else raises before the session is stored. -/
def c2WitnessWorld : ConnectWorld :=
  fun n => if n = "good" then .ok 1 [⟨"t", "d"⟩] else .connectFail

/-- Witness for C2 at a concrete registry: both enabled servers are
attempted despite the first one failing, the disabled one is not, and
the failing server stays out of the active set. -/
theorem initialize_servers_partial_failure_isolation_witness :
    (c2WitnessState.servers.map (fun s => s.name)).Nodup ∧
    (initializeServers c2WitnessWorld c2WitnessState).2 = ["bad", "good"] ∧
    lookupKey "good" (initializeServers c2WitnessWorld c2WitnessState).1.active = some 1 ∧
    lookupKey "bad" (initializeServers c2WitnessWorld c2WitnessState).1.active = none :=
  ⟨by decide,
   ((initialize_servers_partial_failure_isolation c2WitnessWorld c2WitnessState
      (by decide)).1).trans (by decide),
   (((initialize_servers_partial_failure_isolation c2WitnessWorld c2WitnessState
      (by decide)).2 ⟨"good", "stdio", true, []⟩ (by decide) rfl rfl).1).trans (by decide),
   (((initialize_servers_partial_failure_isolation c2WitnessWorld c2WitnessState
      (by decide)).2 ⟨"bad", "stdio", true, []⟩ (by decide) rfl rfl).1).trans (by decide)⟩

/-- Concrete registry for the C2 counterexample: one enabled stdio
server. -/
def c2FailState : MCPState :=
  { servers := [⟨"s", "stdio", true, []⟩], active := [], toolsCache := [] }

/-- C2 counterexample: the server's connection attempt raises during
`session.list_tools()` — after the session was already stored — so the
exception is caught but the server is NOT excluded from the active
connection set (its session stays mapped, with no tool cache),
contradicting the claim that an exception raised while connecting a
server always excludes it from the active connection set. -/
theorem initialize_servers_failed_server_stays_active :
    lookupKey "s" (initializeServers (fun _ => .listToolsFail 7) c2FailState).1.active =
      some 7 ∧
    lookupKey "s" (initializeServers (fun _ => .listToolsFail 7) c2FailState).1.toolsCache =
      none := by
  decide

theorem buildEnv_not_mem (g : String → Option String) (p ovs : List (String × String))
    (k : String) (hk : k ∉ ovs.map Prod.fst) :
    lookupKey k (buildEnv g p ovs) = lookupKey k p := by
  revert hk
  induction ovs generalizing p with
  | nil => intro _; rfl
  | cons a rest ih =>
    intro hk
    simp only [List.map_cons, List.mem_cons, not_or] at hk
    obtain ⟨hka, hkr⟩ := hk
    show lookupKey k (buildEnv g (insertKey a.1 (expandValue g a.2) p) rest) = _
    rw [ih _ hkr, lookupKey_insertKey_ne _ _ _ _ hka]

theorem buildEnv_mem (g : String → Option String) (p ovs : List (String × String))
    (hnd : (ovs.map Prod.fst).Nodup) (kv : String × String) (hkv : kv ∈ ovs) :
    lookupKey kv.1 (buildEnv g p ovs) = some (expandValue g kv.2) := by
  revert hnd hkv
  induction ovs generalizing p with
  | nil =>
    intro _ h
    cases h
  | cons a rest ih =>
    intro hnd hkv
    simp only [List.map_cons, List.nodup_cons] at hnd
    obtain ⟨hna, hndr⟩ := hnd
    rcases List.mem_cons.mp hkv with rfl | hr
    · show lookupKey kv.1 (buildEnv g (insertKey kv.1 (expandValue g kv.2) p) rest) = _
      rw [buildEnv_not_mem g _ rest kv.1 hna, lookupKey_insertKey_self]
    · exact ih (insertKey a.1 (expandValue g a.2) p) hndr hr

/-- C8, amended: the launch environment is the full process environment
overlaid with the descriptor's env overrides (each override key maps to
its expanded value, untouched keys keep their process value), where a
value is whole-expanded whenever it merely starts with dollar–brace and
ends with a brace — everything strictly between, braces and dollars
included, is looked up as a single variable name, empty string when
unset — and every value failing that prefix/suffix test passes through
unchanged. The original claim's stronger reading — that a value
embedding placeholders without being exactly one is passed through — is
refuted by the counterexample. -/
theorem connect_env_overlay_and_expansion (g : String → Option String)
    (procEnv overrides : List (String × String))
    (hnd : (overrides.map Prod.fst).Nodup) :
    (∀ kv ∈ overrides,
      lookupKey kv.1 (buildEnv g procEnv overrides) = some (expandValue g kv.2)) ∧
    (∀ k, k ∉ overrides.map Prod.fst →
      lookupKey k (buildEnv g procEnv overrides) = lookupKey k procEnv) ∧
    (∀ v : String, v.data.take 2 = ['$', '\x7b'] → v.data.getLast? = some '\x7d' →
      expandValue g v = (g (String.mk ((v.data.drop 2).dropLast))).getD "") ∧
    (∀ v : String, ¬(v.data.take 2 = ['$', '\x7b'] ∧ v.data.getLast? = some '\x7d') →
      expandValue g v = v) :=
  ⟨fun kv hkv => buildEnv_mem g procEnv overrides hnd kv hkv,
   fun k hk => buildEnv_not_mem g procEnv overrides k hk,
   fun v h1 h2 => by simp [expandValue, h1, h2],
   fun v h => by rw [expandValue, if_neg h]⟩

/-- Process environment oracle for the C8 witness. -/
def c8Getenv : String → Option String :=
  fun n => if n = "HOME" then some "/root" else none

/-- Env overrides for the C8 witness: one exact placeholder, one
literal. -/
def c8Overrides : List (String × String) :=
  [("PATHX", "$\x7bHOME\x7d"), ("LIT", "v1")]

/-- Witness for C8 at a concrete environment: the placeholder override
expands, the literal passes through, an untouched process variable is
kept. -/
theorem connect_env_overlay_and_expansion_witness :
    (c8Overrides.map Prod.fst).Nodup ∧
    lookupKey "PATHX" (buildEnv c8Getenv [("KEEP", "x")] c8Overrides) = some "/root" ∧
    lookupKey "LIT" (buildEnv c8Getenv [("KEEP", "x")] c8Overrides) = some "v1" ∧
    lookupKey "KEEP" (buildEnv c8Getenv [("KEEP", "x")] c8Overrides) = some "x" :=
  ⟨by decide,
   ((connect_env_overlay_and_expansion c8Getenv [("KEEP", "x")] c8Overrides (by decide)).1
      ("PATHX", "$\x7bHOME\x7d") (by decide)).trans (by decide),
   ((connect_env_overlay_and_expansion c8Getenv [("KEEP", "x")] c8Overrides (by decide)).1
      ("LIT", "v1") (by decide)).trans (by decide),
   ((connect_env_overlay_and_expansion c8Getenv [("KEEP", "x")] c8Overrides
      (by decide)).2.1 "KEEP" (by decide)).trans (by decide)⟩

/-- C8 counterexample: a value made of two adjacent placeholders starts
with dollar–brace and ends with a brace, so the code whole-expands it —
looking up the nonsensical middle as one variable name and producing the
empty string when it is unset — whereas the claim (here
`expandValueSpec`) requires any value that is not exactly one
placeholder, including one merely embedding placeholders, to pass
through unchanged. -/
theorem expand_value_mangles_embedded_placeholders :
    expandValue (fun _ => none) "$\x7bA\x7d$\x7bB\x7d" = "" ∧
    expandValueSpec (fun _ => none) "$\x7bA\x7d$\x7bB\x7d" = "$\x7bA\x7d$\x7bB\x7d" ∧
    ("" : String) ≠ "$\x7bA\x7d$\x7bB\x7d" := by
  decide

/-- C7, amended: `warmup` swallows any failure of the throwaway
generation (its try/except covers only `run_stream`), so it raises
exactly when `_ensure_initialized` raises — in particular never from an
already-initialized state; but an exception raised by initialization
itself, which sits before the try block, propagates to the caller. The
original claim that warmup never propagates an exception even when
initialization fails is refuted by the counterexample. -/
theorem warmup_error_propagation (w : InitBehavior) (genFail : Option String)
    (st : ChatState) :
    (warmup w genFail st).2 = (ensureInitialized w st).2 ∧
    (st.initialized = true → (warmup w genFail st).2 = none) := by
  constructor
  · cases hr : (ensureInitialized w st).2 with
    | none => cases genFail <;> simp [warmup, hr]
    | some e => simp [warmup, hr]
  · intro hi
    have hr : (ensureInitialized w st).2 = none := by simp [ensureInitialized, hi]
    cases genFail <;> simp [warmup, hr]

/-- An uninitialized controller state. -/
def c7Uninit : ChatState :=
  { ollama := { model := none, modelLoaded := false }
    agent := none, client := none, initialized := false, nextId := 0 }

/-- A fully initialized controller state. -/
def c7Ready : ChatState :=
  { ollama := { model := some "m", modelLoaded := true }
    agent := some ⟨1, some "m"⟩, client := some ⟨0, some "m"⟩
    initialized := true, nextId := 2 }

/-- Witness for C7's amended claim: from a ready state even a failing
throwaway generation is swallowed. -/
theorem warmup_error_propagation_witness :
    c7Ready.initialized = true ∧ (warmup .ok (some "generation lost") c7Ready).2 = none :=
  ⟨rfl, (warmup_error_propagation .ok (some "generation lost") c7Ready).2 rfl⟩

/-- C7 counterexample: from an uninitialized state whose agent
construction raises, `warmup` propagates the exception to its caller —
`_ensure_initialized` is awaited before the try block — contradicting
the claim that warmup never propagates an exception even when
initialization fails. -/
theorem warmup_propagates_init_failure :
    (warmup (.ctorFail "connection refused") none c7Uninit).2 =
      some "connection refused" := by
  decide

/-- C5: `reload_with_model` returns a plain boolean (its whole body is
try/except-wrapped, so nothing escapes this boundary), succeeding
exactly when agent construction succeeds; on success from a previously
ready state the new agent handle is distinct from the prior one, carries
the new model identity, and the service's model is the new name. -/
theorem reload_with_model_fresh_agent (w : InitBehavior) (genFail : Option String)
    (modelName : String) (st : ChatState) (a : AgentHandle)
    (hready : st.initialized = true) (hagent : st.agent = some a)
    (hfresh : a.id < st.nextId) :
    ((reloadWithModel w genFail modelName st).2 = true ↔ w = .ok) ∧
    ((reloadWithModel w genFail modelName st).2 = true →
      (reloadWithModel w genFail modelName st).1.ollama.model = some modelName ∧
      ∃ a', (reloadWithModel w genFail modelName st).1.agent = some a' ∧
        a' ≠ a ∧ a'.modelId = some modelName) := by
  cases w with
  | ctorFail e =>
    refine ⟨by simp [reloadWithModel, ensureInitialized, initializeAgent, warmup], ?_⟩
    intro hc
    simp [reloadWithModel, ensureInitialized, initializeAgent, warmup] at hc
  | createFail e =>
    refine ⟨by simp [reloadWithModel, ensureInitialized, initializeAgent, warmup], ?_⟩
    intro hc
    simp [reloadWithModel, ensureInitialized, initializeAgent, warmup] at hc
  | ok =>
    refine ⟨by cases genFail <;>
      simp [reloadWithModel, ensureInitialized, initializeAgent, warmup], fun _ => ?_⟩
    refine ⟨by cases genFail <;>
      simp [reloadWithModel, ensureInitialized, initializeAgent, warmup],
      ⟨st.nextId + 1, some modelName⟩,
      by cases genFail <;>
        simp [reloadWithModel, ensureInitialized, initializeAgent, warmup], ?_, rfl⟩
    intro hcon
    have hid := congrArg AgentHandle.id hcon
    simp at hid
    omega

/-- A ready controller state on model A, for the C5 witness. -/
def c5Ready : ChatState :=
  { ollama := { model := some "modelA", modelLoaded := true }
    agent := some ⟨1, some "modelA"⟩, client := some ⟨0, some "modelA"⟩
    initialized := true, nextId := 2 }

/-- Witness for C5 at a concrete ready state: reloading to model B
succeeds with a fresh agent carrying model B. -/
theorem reload_with_model_fresh_agent_witness :
    (reloadWithModel .ok none "modelB" c5Ready).2 = true ∧
    (reloadWithModel .ok none "modelB" c5Ready).1.ollama.model = some "modelB" ∧
    ∃ a', (reloadWithModel .ok none "modelB" c5Ready).1.agent = some a' ∧
      a' ≠ (⟨1, some "modelA"⟩ : AgentHandle) ∧ a'.modelId = some "modelB" :=
  ⟨by decide,
   ((reload_with_model_fresh_agent .ok none "modelB" c5Ready ⟨1, some "modelA"⟩
      rfl rfl (by decide)).2 (by decide)).1,
   ((reload_with_model_fresh_agent .ok none "modelB" c5Ready ⟨1, some "modelA"⟩
      rfl rfl (by decide)).2 (by decide)).2⟩

/-- C10, amended: when `reload_with_model` returns `false`, the service
model has already been set to the new name and marked loaded, the prior
agent handle is discarded (`agent` is `None`), the initialized flag is
cleared (so the controller stays retryable), and the prior client handle
is discarded — but `client` is `None` only when the failure occurred in
the client constructor itself: a failure inside `create_agent` leaves
the freshly constructed client (carrying the new model) assigned. The
original claim that `client` is always `None` on failure is refuted by
the counterexample. -/
theorem reload_failure_frame (w : InitBehavior) (genFail : Option String)
    (modelName : String) (st : ChatState)
    (hfail : (reloadWithModel w genFail modelName st).2 = false) :
    (reloadWithModel w genFail modelName st).1.ollama.model = some modelName ∧
    (reloadWithModel w genFail modelName st).1.ollama.modelLoaded = true ∧
    (reloadWithModel w genFail modelName st).1.agent = none ∧
    (reloadWithModel w genFail modelName st).1.initialized = false ∧
    ((reloadWithModel w genFail modelName st).1.client = none ∨
      (reloadWithModel w genFail modelName st).1.client =
        some ⟨st.nextId, some modelName⟩) := by
  cases w with
  | ctorFail e =>
    refine ⟨?_, ?_, ?_, ?_, Or.inl ?_⟩ <;>
      simp [reloadWithModel, ensureInitialized, initializeAgent, warmup]
  | createFail e =>
    refine ⟨?_, ?_, ?_, ?_, Or.inr ?_⟩ <;>
      simp [reloadWithModel, ensureInitialized, initializeAgent, warmup]
  | ok =>
    cases genFail <;>
      simp [reloadWithModel, ensureInitialized, initializeAgent, warmup] at hfail

/-- A ready controller state for the C10 witness and counterexample. -/
def c10Ready : ChatState :=
  { ollama := { model := some "modelA", modelLoaded := true }
    agent := some ⟨1, some "modelA"⟩, client := some ⟨0, some "modelA"⟩
    initialized := true, nextId := 2 }

/-- Witness for C10's amended claim at a concrete failing reload. -/
theorem reload_failure_frame_witness :
    (reloadWithModel (.createFail "model missing") none "modelB" c10Ready).2 = false ∧
    (reloadWithModel (.createFail "model missing") none "modelB" c10Ready).1.ollama.model =
      some "modelB" ∧
    (reloadWithModel (.createFail "model missing") none "modelB" c10Ready).1.agent = none :=
  ⟨by decide,
   (reload_failure_frame (.createFail "model missing") none "modelB" c10Ready (by decide)).1,
   (reload_failure_frame (.createFail "model missing") none "modelB" c10Ready
      (by decide)).2.2.1⟩

/-- C10 counterexample: a reload whose `create_agent` call raises
returns `false` with `client` holding the freshly constructed client for
the new model — not `None` as the claim states. -/
theorem reload_failure_leaves_fresh_client :
    (reloadWithModel (.createFail "model missing") none "modelB" c10Ready).2 = false ∧
    (reloadWithModel (.createFail "model missing") none "modelB" c10Ready).1.client =
      some ⟨2, some "modelB"⟩ := by
  decide
